import Mathlib

/-!
Verification of the ring-buffer audio streaming firmware
(XIAO_FIRMWARE_USPURGE): a shallow embedding of the sample ring buffer,
the paced transmit handler, the sine-wave service and the streaming
state transitions, with theorems about their behaviour.

Machine integers: all cursor arithmetic in the C source keeps cursors in
[0, N) via `% N`, so cursors are modelled as `Nat` with explicit `% N`.
Samples are `int16_t`; their numeric range plays no role in the
properties below, so they are modelled as `Int`.
-/

namespace Firmware

/-- `RING_BUFFER_SAMPLES` from main.c: capacity of the sample ring. -/
def RING_BUFFER_SAMPLES : Nat := 1024

/-- `CHUNK_SAMPLES` from main.c: samples per transmitted packet. -/
def CHUNK_SAMPLES : Nat := 160

/-- State of the ring buffer: the backing array `ring_buffer` and the two
cursors `write_pos`, `read_pos` (globals in main.c).  The capacity `N` is
a parameter of the operations (the source fixes it to
`RING_BUFFER_SAMPLES`). -/
structure RingState where
  ring_buffer : List Int
  write_pos : Nat
  read_pos : Nat
deriving DecidableEq

/-- Well-formedness: both cursors below the capacity, backing array of
exactly the capacity.  This holds of the initial state and is preserved
by every operation. -/
def WF (N : Nat) (rb : RingState) : Prop :=
  rb.write_pos < N ∧ rb.read_pos < N ∧ rb.ring_buffer.length = N

instance (N : Nat) (rb : RingState) : Decidable (WF N rb) := by
  unfold WF; infer_instance

/-- `ring_buffer_available_samples` from main.c. -/
def ring_buffer_available_samples (N : Nat) (rb : RingState) : Nat :=
  if rb.write_pos ≥ rb.read_pos then
    N - (rb.write_pos - rb.read_pos) - 1
  else
    rb.read_pos - rb.write_pos - 1

/-- `ring_buffer_used_samples` from main.c. -/
def ring_buffer_used_samples (N : Nat) (rb : RingState) : Nat :=
  if rb.write_pos ≥ rb.read_pos then
    rb.write_pos - rb.read_pos
  else
    N - (rb.read_pos - rb.write_pos)

/-- One iteration of the loop body of `ring_buffer_write_samples`:
if a slot is available the sample is stored at `write_pos`; otherwise the
oldest sample is dropped by advancing `read_pos` one step and the sample
is stored. -/
def write_one_sample (N : Nat) (rb : RingState) (s : Int) : RingState :=
  if ring_buffer_available_samples N rb > 0 then
    { ring_buffer := rb.ring_buffer.set rb.write_pos s,
      write_pos := (rb.write_pos + 1) % N,
      read_pos := rb.read_pos }
  else
    { ring_buffer := rb.ring_buffer.set rb.write_pos s,
      write_pos := (rb.write_pos + 1) % N,
      read_pos := (rb.read_pos + 1) % N }

/-- `ring_buffer_write_samples` from main.c: the samples are written in
order by the loop, i.e. a left fold of the loop body. -/
def ring_buffer_write_samples (N : Nat) (rb : RingState) (samples : List Int) :
    RingState :=
  samples.foldl (write_one_sample N) rb

/-- Result of `ring_buffer_read_samples`: the samples copied out, the
ring state after the call, and the returned count `to_read`. -/
structure ReadResult where
  out : List Int
  rng : RingState
  cnt : Nat
deriving DecidableEq

/-- The copy loop of `ring_buffer_read_samples`: reads `k` samples
starting at cursor `r`, advancing modulo `N`; returns the samples and
the final cursor. -/
def read_loop (N : Nat) (buf : List Int) (r : Nat) : Nat → List Int × Nat
  | 0 => ([], r)
  | k + 1 =>
    let v := buf.getD r 0
    let p := read_loop N buf ((r + 1) % N) k
    (v :: p.1, p.2)

/-- `ring_buffer_read_samples` from main.c: reads
`to_read = min max_samples used` samples from `read_pos` and returns
`to_read`. -/
def ring_buffer_read_samples (N : Nat) (rb : RingState) (max_samples : Nat) :
    ReadResult :=
  let to_read := min max_samples (ring_buffer_used_samples N rb)
  let p := read_loop N rb.ring_buffer rb.read_pos to_read
  { out := p.1,
    rng := { rb with read_pos := p.2 },
    cnt := to_read }

/-- The logical content of the ring: the `used` samples starting at
`read_pos`, in FIFO order. -/
def contents (N : Nat) (rb : RingState) : List Int :=
  (List.range (ring_buffer_used_samples N rb)).map
    (fun i => rb.ring_buffer.getD ((rb.read_pos + i) % N) 0)

/-- The ring state at program start: zeroed static array, both cursors 0. -/
def init_ring (N : Nat) : RingState :=
  { ring_buffer := List.replicate N 0, write_pos := 0, read_pos := 0 }

/-- Ring states reachable by any sequence of writes and reads from the
initial state. -/
inductive Reachable (N : Nat) : RingState → Prop
  | init : Reachable N (init_ring N)
  | write (rb : RingState) (samples : List Int) :
      Reachable N rb → Reachable N (ring_buffer_write_samples N rb samples)
  | read (rb : RingState) (max_samples : Nat) :
      Reachable N rb → Reachable N (ring_buffer_read_samples N rb max_samples).rng

/-! ### Arithmetic characterisations of the cursor queries -/

/-- Case-split form of `ring_buffer_used_samples`, convenient for `omega`. -/
theorem used_or (N : Nat) (rb : RingState) :
    (rb.read_pos ≤ rb.write_pos ∧
      ring_buffer_used_samples N rb = rb.write_pos - rb.read_pos) ∨
    (rb.write_pos < rb.read_pos ∧
      ring_buffer_used_samples N rb = N - (rb.read_pos - rb.write_pos)) := by
  unfold ring_buffer_used_samples
  split
  · rename_i h
    exact Or.inl ⟨h, rfl⟩
  · rename_i h
    exact Or.inr ⟨by omega, rfl⟩

/-- Case-split form of `ring_buffer_available_samples`. -/
theorem available_or (N : Nat) (rb : RingState) :
    (rb.read_pos ≤ rb.write_pos ∧
      ring_buffer_available_samples N rb = N - (rb.write_pos - rb.read_pos) - 1) ∨
    (rb.write_pos < rb.read_pos ∧
      ring_buffer_available_samples N rb = rb.read_pos - rb.write_pos - 1) := by
  unfold ring_buffer_available_samples
  split
  · rename_i h
    exact Or.inl ⟨h, rfl⟩
  · rename_i h
    exact Or.inr ⟨by omega, rfl⟩

/-- Advancing a cursor: either no wrap or wrap to 0. -/
theorem mod_succ_or (x N : Nat) (hx : x < N) :
    ((x + 1) % N = x + 1 ∧ x + 1 < N) ∨ ((x + 1) % N = 0 ∧ x + 1 = N) := by
  rcases Nat.lt_or_ge (x + 1) N with h | h
  · exact Or.inl ⟨Nat.mod_eq_of_lt h, h⟩
  · have h2 : x + 1 = N := by omega
    exact Or.inr ⟨by rw [h2, Nat.mod_self], h2⟩

/-- `used ≤ N - 1` for any well-formed ring state. -/
theorem used_le (N : Nat) (rb : RingState) (h : WF N rb) :
    ring_buffer_used_samples N rb ≤ N - 1 := by
  obtain ⟨hw, hr, _⟩ := h
  have hu := used_or N rb
  omega

/-- `available = N - 1 - used` for any well-formed ring state. -/
theorem available_eq (N : Nat) (rb : RingState) (h : WF N rb) :
    ring_buffer_available_samples N rb =
      N - 1 - ring_buffer_used_samples N rb := by
  obtain ⟨hw, hr, _⟩ := h
  have hu := used_or N rb
  have ha := available_or N rb
  omega

/-- `used` is the cursor difference modulo `N` (stated over `Int`). -/
theorem used_int (N : Nat) (rb : RingState) (h : WF N rb) :
    (ring_buffer_used_samples N rb : Int) =
      ((rb.write_pos : Int) - rb.read_pos) % N := by
  obtain ⟨hw, hr, _⟩ := h
  have hu := used_or N rb
  rcases hu with ⟨hle, he⟩ | ⟨hlt, he⟩
  · rw [he, Int.emod_eq_of_lt (by omega) (by omega)]
    omega
  · rw [he, ← Int.add_emod_self, Int.emod_eq_of_lt (by omega) (by omega)]
    omega

/-- The write cursor sits `used` slots after the read cursor, modulo `N`. -/
theorem write_pos_eq (N : Nat) (rb : RingState) (h : WF N rb) :
    rb.write_pos = (rb.read_pos + ring_buffer_used_samples N rb) % N := by
  obtain ⟨hw, hr, _⟩ := h
  have hu := used_or N rb
  rcases hu with ⟨hle, he⟩ | ⟨hlt, he⟩
  · rw [he]
    have h1 : rb.read_pos + (rb.write_pos - rb.read_pos) = rb.write_pos := by omega
    rw [h1, Nat.mod_eq_of_lt hw]
  · rw [he]
    have h1 : rb.read_pos + (N - (rb.read_pos - rb.write_pos)) = N + rb.write_pos := by
      omega
    rw [h1, Nat.add_mod_left, Nat.mod_eq_of_lt hw]

/-! ### Preservation of well-formedness -/

theorem WF_write_one (N : Nat) (rb : RingState) (s : Int) (h0 : 0 < N)
    (h : WF N rb) : WF N (write_one_sample N rb s) := by
  obtain ⟨hw, hr, hl⟩ := h
  unfold write_one_sample
  split
  · exact ⟨Nat.mod_lt _ h0, hr, by simpa using hl⟩
  · exact ⟨Nat.mod_lt _ h0, Nat.mod_lt _ h0, by simpa using hl⟩

theorem WF_write (N : Nat) (rb : RingState) (samples : List Int) (h0 : 0 < N)
    (h : WF N rb) : WF N (ring_buffer_write_samples N rb samples) := by
  induction samples generalizing rb with
  | nil => exact h
  | cons a l ih => exact ih _ (WF_write_one N rb a h0 h)

theorem WF_read (N : Nat) (rb : RingState) (max_samples : Nat) (h0 : 0 < N)
    (h : WF N rb) : WF N (ring_buffer_read_samples N rb max_samples).rng := by
  obtain ⟨hw, hr, hl⟩ := h
  have hloop : ∀ (k r : Nat), r < N →
      (read_loop N rb.ring_buffer r k).2 < N := by
    intro k
    induction k with
    | zero => intro r h1; exact h1
    | succ n ih =>
      intro r h1
      exact ih _ (Nat.mod_lt _ h0)
  exact ⟨hw, hloop _ _ hr, hl⟩

/-! ### The `used` count after a write -/

/-- One loop iteration of the write: `used` grows by one, saturating at
`N - 1` (when full, the oldest sample is evicted and `used` stays put). -/
theorem used_write_one (N : Nat) (rb : RingState) (s : Int) (h : WF N rb) :
    ring_buffer_used_samples N (write_one_sample N rb s) =
      min (ring_buffer_used_samples N rb + 1) (N - 1) := by
  obtain ⟨hw, hr, hl⟩ := h
  have hu := used_or N rb
  have ha := available_or N rb
  have e1 := mod_succ_or rb.write_pos N hw
  have e2 := mod_succ_or rb.read_pos N hr
  unfold write_one_sample
  split
  · rename_i hav
    have hu2 := used_or N
      { ring_buffer := rb.ring_buffer.set rb.write_pos s,
        write_pos := (rb.write_pos + 1) % N, read_pos := rb.read_pos }
    dsimp only at hu2
    omega
  · rename_i hav
    have hu2 := used_or N
      { ring_buffer := rb.ring_buffer.set rb.write_pos s,
        write_pos := (rb.write_pos + 1) % N, read_pos := (rb.read_pos + 1) % N }
    dsimp only at hu2
    omega

/-- After `ring_buffer_write_samples`, `used` is
`min (used_before + count) (N - 1)`. -/
theorem used_write (N : Nat) (rb : RingState) (samples : List Int) (h0 : 0 < N)
    (h : WF N rb) :
    ring_buffer_used_samples N (ring_buffer_write_samples N rb samples) =
      min (ring_buffer_used_samples N rb + samples.length) (N - 1) := by
  induction samples generalizing rb with
  | nil =>
    have := used_le N rb h
    simp [ring_buffer_write_samples]
    omega
  | cons a l ih =>
    have h1 := used_write_one N rb a h
    have h2 := ih (write_one_sample N rb a) (WF_write_one N rb a h0 h)
    have h3 := used_le N rb h
    unfold ring_buffer_write_samples at h2 ⊢
    simp only [List.foldl_cons] at h2 ⊢
    rw [h2, h1]
    simp only [List.length_cons]
    omega

/-! ### Slot index arithmetic -/

/-- Slots `(r + i) % N` are pairwise distinct for `i < N`. -/
theorem index_inj (N r i j : Nat) (hi : i < N) (hj : j < N)
    (h : (r + i) % N = (r + j) % N) : i = j := by
  have h1 : i % N = j % N := Nat.ModEq.add_left_cancel' r h
  rwa [Nat.mod_eq_of_lt hi, Nat.mod_eq_of_lt hj] at h1

theorem getD_set_self (l : List Int) (i : Nat) (x : Int) (hi : i < l.length) :
    (l.set i x).getD i 0 = x := by
  simp [List.getD_eq_getElem?_getD, List.getElem?_set_self, hi]

theorem getD_set_ne (l : List Int) (i j : Nat) (x : Int) (hne : i ≠ j) :
    (l.set i x).getD j 0 = l.getD j 0 := by
  simp [List.getD_eq_getElem?_getD, List.getElem?_set_ne hne]

/-! ### The FIFO content after one write step -/

/-- One loop iteration of `ring_buffer_write_samples`, at the level of
logical content: the new sample is appended; if no slot was available
(`available = 0`) the oldest sample is dropped first. -/
theorem contents_write_one (N : Nat) (rb : RingState) (s : Int) (h1 : 1 < N)
    (h : WF N rb) :
    contents N (write_one_sample N rb s) =
      (if ring_buffer_available_samples N rb = 0 then (contents N rb).drop 1
       else contents N rb) ++ [s] := by
  obtain ⟨hw, hr, hl⟩ := h
  have hwf : WF N rb := ⟨hw, hr, hl⟩
  have hule := used_le N rb hwf
  have hav := available_eq N rb hwf
  have hwp := write_pos_eq N rb hwf
  have hu' := used_write_one N rb s hwf
  have hidx : ∀ i, i < ring_buffer_used_samples N rb →
      (rb.read_pos + i) % N ≠ rb.write_pos := by
    intro i hi heq
    rw [hwp] at heq
    have := index_inj N rb.read_pos i (ring_buffer_used_samples N rb)
      (by omega) (by omega) heq
    omega
  have hwidx : (rb.read_pos + ring_buffer_used_samples N rb) % N = rb.write_pos :=
    hwp.symm
  have hb' : (write_one_sample N rb s).ring_buffer =
      rb.ring_buffer.set rb.write_pos s := by
    unfold write_one_sample; split <;> rfl
  have hC : contents N rb =
      (List.range (ring_buffer_used_samples N rb)).map
        (fun i => rb.ring_buffer.getD ((rb.read_pos + i) % N) 0) := rfl
  by_cases hc : ring_buffer_available_samples N rb = 0
  · -- full: the read cursor advances one slot before the write
    rw [if_pos hc]
    have huN : ring_buffer_used_samples N rb = N - 1 := by omega
    have hu'' : ring_buffer_used_samples N (write_one_sample N rb s) = N - 1 := by
      omega
    have hr' : (write_one_sample N rb s).read_pos = (rb.read_pos + 1) % N := by
      unfold write_one_sample
      rw [if_neg (by omega)]
    have hdrop : (contents N rb).drop 1 =
        (List.range (N - 2)).map
          (fun i => rb.ring_buffer.getD ((rb.read_pos + (i + 1)) % N) 0) := by
      rw [hC, huN, show N - 1 = (N - 2) + 1 from by omega, List.range_succ_eq_map,
        List.map_cons, List.drop_one, List.tail_cons, List.map_map]
      apply List.map_congr_left
      intro i _
      simp [Function.comp, Nat.succ_eq_add_one]
    have hL : contents N (write_one_sample N rb s) =
        (List.range ((N - 2) + 1)).map
          (fun i => (rb.ring_buffer.set rb.write_pos s).getD
            (((rb.read_pos + 1) % N + i) % N) 0) := by
      unfold contents
      rw [hu'', hr', hb', show N - 1 = (N - 2) + 1 from by omega]
    rw [hL, hdrop, List.range_succ, List.map_append]
    congr 1
    · -- the surviving samples, shifted by one
      apply List.map_congr_left
      intro i hi
      rw [List.mem_range] at hi
      dsimp only
      have e1 : ((rb.read_pos + 1) % N + i) % N = (rb.read_pos + (i + 1)) % N := by
        rw [Nat.mod_add_mod]
        congr 1
        omega
      rw [e1, getD_set_ne _ _ _ _ (fun hx => hidx (i + 1) (by omega) hx.symm)]
    · -- the evicted slot is exactly where the new sample lands
      have e1 : ((rb.read_pos + 1) % N + (N - 2)) % N =
          (rb.read_pos + ring_buffer_used_samples N rb) % N := by
        rw [Nat.mod_add_mod, huN]
        congr 1
        omega
      rw [List.map_cons, List.map_nil, e1, hwidx, getD_set_self _ _ _ (by omega)]
  · -- a free slot exists: plain append
    rw [if_neg hc]
    have hu'' : ring_buffer_used_samples N (write_one_sample N rb s) =
        ring_buffer_used_samples N rb + 1 := by omega
    have hr' : (write_one_sample N rb s).read_pos = rb.read_pos := by
      unfold write_one_sample
      rw [if_pos (by omega)]
    have hL : contents N (write_one_sample N rb s) =
        (List.range (ring_buffer_used_samples N rb + 1)).map
          (fun i => (rb.ring_buffer.set rb.write_pos s).getD
            ((rb.read_pos + i) % N) 0) := by
      unfold contents
      rw [hu'', hr', hb']
    rw [hL, hC, List.range_succ, List.map_append]
    congr 1
    · apply List.map_congr_left
      intro i hi
      rw [List.mem_range] at hi
      dsimp only
      exact getD_set_ne _ _ _ _ (fun hx => hidx i hi hx.symm)
    · rw [List.map_cons, List.map_nil, hwidx, getD_set_self _ _ _ (by omega)]

/-! ### The write loop at the level of logical content -/

/-- Abstract effect of writing one sample into content `l` when the ring
holds at most `c = N - 1` samples: append, evicting the head at capacity. -/
def push_evict (c : Nat) (l : List Int) (s : Int) : List Int :=
  if l.length < c then l ++ [s] else l.drop 1 ++ [s]

theorem contents_length (N : Nat) (rb : RingState) :
    (contents N rb).length = ring_buffer_used_samples N rb := by
  simp [contents]

theorem contents_write (N : Nat) (rb : RingState) (samples : List Int)
    (h1 : 1 < N) (h : WF N rb) :
    contents N (ring_buffer_write_samples N rb samples) =
      samples.foldl (push_evict (N - 1)) (contents N rb) := by
  induction samples generalizing rb with
  | nil => rfl
  | cons a l ih =>
    have hstep : ring_buffer_write_samples N rb (a :: l) =
        ring_buffer_write_samples N (write_one_sample N rb a) l := rfl
    rw [hstep, ih _ (WF_write_one N rb a (by omega) h), List.foldl_cons]
    congr 1
    rw [contents_write_one N rb a h1 h]
    have hav := available_eq N rb h
    have hle := used_le N rb h
    have hcl := contents_length N rb
    unfold push_evict
    by_cases hc : ring_buffer_available_samples N rb = 0
    · rw [if_pos hc, if_neg (by omega)]
    · rw [if_neg hc, if_pos (by omega)]

/-- Folding `push_evict` keeps exactly the last `c` elements of the
stream seen so far. -/
theorem foldl_push_evict (c : Nat) (hc : 0 < c) (vs : List Int) :
    ∀ (l : List Int), l.length ≤ c →
      vs.foldl (push_evict c) l = (l ++ vs).drop (l.length + vs.length - c) := by
  induction vs using List.reverseRecOn with
  | nil =>
    intro l hl
    simp only [List.foldl_nil, List.append_nil, List.length_nil]
    rw [show l.length + 0 - c = 0 from by omega, List.drop_zero]
  | append_singleton vs s ih =>
    intro l hl
    rw [List.foldl_append, List.foldl_cons, List.foldl_nil, ih l hl]
    have hlen : ((l ++ vs).drop (l.length + vs.length - c)).length =
        l.length + vs.length - (l.length + vs.length - c) := by
      rw [List.length_drop, List.length_append]
    simp only [List.length_append, List.length_cons, List.length_nil, Nat.zero_add]
    unfold push_evict
    by_cases hd : l.length + vs.length < c
    · rw [if_pos (by omega),
        show l.length + vs.length - c = 0 from by omega, List.drop_zero,
        show l.length + (vs.length + 1) - c = 0 from by omega, List.drop_zero,
        List.append_assoc]
    · rw [if_neg (by omega), List.drop_drop]
      have hR : (l ++ (vs ++ [s])).drop (l.length + (vs.length + 1) - c) =
          (l ++ vs).drop (l.length + (vs.length + 1) - c) ++ [s] := by
        rw [← List.append_assoc,
          List.drop_append_of_le_length (by rw [List.length_append]; omega)]
      rw [hR, show l.length + (vs.length + 1) - c = l.length + vs.length - c + 1
        from by omega]

/-- Writing any sample stream into the empty ring retains exactly the
last `N - 1` samples, in order. -/
theorem contents_write_init (N : Nat) (samples : List Int) (h1 : 1 < N) :
    contents N (ring_buffer_write_samples N (init_ring N) samples) =
      samples.drop (samples.length - (N - 1)) := by
  have h : WF N (init_ring N) :=
    ⟨by simp only [init_ring]; omega, by simp only [init_ring]; omega,
      by simp [init_ring]⟩
  have hc0 : contents N (init_ring N) = [] := by
    simp [contents, ring_buffer_used_samples, init_ring]
  rw [contents_write N _ _ h1 h, hc0,
    foldl_push_evict (N - 1) (by omega) samples [] (by simp)]
  simp

/-! ### The read loop -/

/-- Closed form of the copy loop of `ring_buffer_read_samples`. -/
theorem read_loop_spec (N : Nat) (buf : List Int) (h0 : 0 < N) :
    ∀ (k r : Nat), r < N →
      read_loop N buf r k =
        ((List.range k).map (fun i => buf.getD ((r + i) % N) 0), (r + k) % N) := by
  intro k
  induction k with
  | zero =>
    intro r hr
    simp [read_loop, Nat.mod_eq_of_lt hr]
  | succ n ih =>
    intro r hr
    show (buf.getD r 0 :: (read_loop N buf ((r + 1) % N) n).1,
        (read_loop N buf ((r + 1) % N) n).2) = _
    rw [ih ((r + 1) % N) (Nat.mod_lt _ h0)]
    dsimp only
    rw [Prod.mk.injEq]
    constructor
    · rw [List.range_succ_eq_map, List.map_cons, List.map_map]
      congr 1
      · simp [Nat.mod_eq_of_lt hr]
      · apply List.map_congr_left
        intro i _
        simp only [Function.comp]
        rw [Nat.mod_add_mod]
        congr 2
        omega
    · rw [Nat.mod_add_mod]
      congr 1
      omega

/-- `used` after moving the read cursor forward by `k ≤ used` slots. -/
theorem used_shift (N : Nat) (rb : RingState) (k : Nat) (h : WF N rb)
    (hk : k ≤ ring_buffer_used_samples N rb) :
    ring_buffer_used_samples N
      { rb with read_pos := (rb.read_pos + k) % N } =
      ring_buffer_used_samples N rb - k := by
  obtain ⟨hw, hr, hl⟩ := h
  have hule := used_le N rb ⟨hw, hr, hl⟩
  have hu := used_or N rb
  have hu' := used_or N { rb with read_pos := (rb.read_pos + k) % N }
  dsimp only at hu'
  have e : (rb.read_pos + k < N ∧ (rb.read_pos + k) % N = rb.read_pos + k) ∨
      (N ≤ rb.read_pos + k ∧ (rb.read_pos + k) % N = rb.read_pos + k - N) := by
    rcases Nat.lt_or_ge (rb.read_pos + k) N with h1 | h1
    · exact Or.inl ⟨h1, Nat.mod_eq_of_lt h1⟩
    · refine Or.inr ⟨h1, ?_⟩
      rw [Nat.mod_eq_sub_mod h1, Nat.mod_eq_of_lt (by omega)]
  omega

/-- Full functional specification of `ring_buffer_read_samples`: the
returned count is `min max_samples used`; the samples returned are the
oldest `cnt` elements of the content, in FIFO order; they are removed
from the ring. -/
theorem read_spec (N : Nat) (rb : RingState) (max_samples : Nat) (h0 : 0 < N)
    (h : WF N rb) :
    (ring_buffer_read_samples N rb max_samples).cnt =
        min max_samples (ring_buffer_used_samples N rb) ∧
    (ring_buffer_read_samples N rb max_samples).out =
        (contents N rb).take
          (min max_samples (ring_buffer_used_samples N rb)) ∧
    contents N (ring_buffer_read_samples N rb max_samples).rng =
        (contents N rb).drop
          (min max_samples (ring_buffer_used_samples N rb)) ∧
    ring_buffer_used_samples N (ring_buffer_read_samples N rb max_samples).rng =
        ring_buffer_used_samples N rb -
          min max_samples (ring_buffer_used_samples N rb) := by
  obtain ⟨hw, hr, hl⟩ := h
  have hwf : WF N rb := ⟨hw, hr, hl⟩
  have hule := used_le N rb hwf
  have hk : min max_samples (ring_buffer_used_samples N rb) ≤
      ring_buffer_used_samples N rb := Nat.min_le_right _ _
  have hloop := read_loop_spec N rb.ring_buffer h0
    (min max_samples (ring_buffer_used_samples N rb)) rb.read_pos hr
  have hres : ring_buffer_read_samples N rb max_samples =
      { out := (List.range (min max_samples (ring_buffer_used_samples N rb))).map
          (fun i => rb.ring_buffer.getD ((rb.read_pos + i) % N) 0),
        rng := { rb with read_pos :=
          (rb.read_pos + min max_samples (ring_buffer_used_samples N rb)) % N },
        cnt := min max_samples (ring_buffer_used_samples N rb) } := by
    simp only [ring_buffer_read_samples]
    rw [hloop]
  have hC : contents N rb =
      (List.range (ring_buffer_used_samples N rb)).map
        (fun i => rb.ring_buffer.getD ((rb.read_pos + i) % N) 0) := rfl
  have hrange : List.range (ring_buffer_used_samples N rb) =
      List.range (min max_samples (ring_buffer_used_samples N rb)) ++
        (List.range (ring_buffer_used_samples N rb -
          min max_samples (ring_buffer_used_samples N rb))).map
          (min max_samples (ring_buffer_used_samples N rb) + ·) := by
    conv_lhs => rw [show ring_buffer_used_samples N rb =
      min max_samples (ring_buffer_used_samples N rb) +
        (ring_buffer_used_samples N rb -
          min max_samples (ring_buffer_used_samples N rb)) from by omega]
    rw [List.range_add]
  refine ⟨by rw [hres], ?_, ?_, ?_⟩
  · -- out = take cnt contents
    rw [hres, hC, hrange, List.map_append, List.take_left' (by simp)]
  · -- contents of the new ring = drop cnt contents
    rw [hres]
    have hu2 : ring_buffer_used_samples N
        { rb with read_pos :=
          (rb.read_pos + min max_samples (ring_buffer_used_samples N rb)) % N } =
        ring_buffer_used_samples N rb -
          min max_samples (ring_buffer_used_samples N rb) :=
      used_shift N rb _ hwf hk
    have hL : contents N
        { rb with read_pos :=
          (rb.read_pos + min max_samples (ring_buffer_used_samples N rb)) % N } =
        (List.range (ring_buffer_used_samples N rb -
          min max_samples (ring_buffer_used_samples N rb))).map
          (fun i => rb.ring_buffer.getD
            (((rb.read_pos + min max_samples (ring_buffer_used_samples N rb)) % N
              + i) % N) 0) := by
      unfold contents
      rw [hu2]
    rw [hL, hC, hrange, List.map_append, List.drop_left' (by simp), List.map_map]
    apply List.map_congr_left
    intro i _
    simp only [Function.comp]
    rw [Nat.mod_add_mod]
    congr 2
    omega
  · rw [hres]
    exact used_shift N rb _ hwf hk

theorem WF_init (N : Nat) (h0 : 0 < N) : WF N (init_ring N) :=
  ⟨by simpa [init_ring] using h0, by simpa [init_ring] using h0,
    by simp [init_ring]⟩

theorem Reachable_WF (N : Nat) (rb : RingState) (h0 : 0 < N)
    (h : Reachable N rb) : WF N rb := by
  induction h with
  | init => exact WF_init N h0
  | write rb samples _ ih => exact WF_write N rb samples h0 ih
  | read rb max_samples _ ih => exact WF_read N rb max_samples h0 ih

/-! ### System state: the globals of main.c and custom_audio_service.c -/

structure Sys where
  ring : RingState
  mic_streaming : Bool
  audio_packet_counter : Nat
  audio_timer_pending : Bool
  notify_enabled : Bool
  streaming_active : Bool
  packet_count : Nat
  error_count : Nat
  phase_accumulator : Nat
  sine_pending : Bool
deriving DecidableEq

/-- `audio_timer_handler` from main.c.  `sink_err` is the value that
`send_mic_audio_data` would return when (and only when) it is invoked.
The second component of the result is the frame handed to the transmit
sink, `none` when the sink is not called on this tick. -/
def audio_timer_handler (s : Sys) (sink_err : Int) : Sys × Option (List Int) :=
  if s.mic_streaming = false then
    ({ s with audio_timer_pending := false }, none)
  else
    let res := ring_buffer_read_samples RING_BUFFER_SAMPLES s.ring CHUNK_SAMPLES
    if res.cnt = CHUNK_SAMPLES then
      if sink_err = 0 then
        ({ s with
            ring := res.rng
            audio_packet_counter := s.audio_packet_counter + 1
            audio_timer_pending := true }, some res.out)
      else
        ({ s with ring := res.rng, audio_timer_pending := true }, some res.out)
    else
      ({ s with ring := res.rng, audio_timer_pending := true }, none)

/-! ### custom_audio_service.c -/

def SAMPLES_PER_PACKET : Nat := 10

def AMPLITUDE : Int := 16383

def sine_table : List Int :=
  [0, 12539, 23170, 30273, 32767, 30273, 23170, 12539,
   0, -12539, -23170, -30273, -32767, -30273, -23170, -12539]

def phase_increment : Nat := 440 * 0xFFFFFFFF / 8000

def UINT32_MOD : Nat := 2 ^ 32

/-- One sample of `generate_sine_wave_samples`: table lookup by the top
four bits of the phase accumulator, scaled by `AMPLITUDE` with an
arithmetic shift right by 15 (floor division). -/
def sine_sample (phase : Nat) : Int :=
  Int.fdiv (sine_table.getD (phase / 2 ^ 28 % 16) 0 * AMPLITUDE) (2 ^ 15)

/-- `generate_sine_wave_samples` from custom_audio_service.c: also
returns the advanced (uint32, wrapping) phase accumulator. -/
def generate_sine_wave_samples (phase : Nat) : Nat → List Int × Nat
  | 0 => ([], phase)
  | k + 1 =>
    let v := sine_sample phase
    let p := generate_sine_wave_samples ((phase + phase_increment) % UINT32_MOD) k
    (v :: p.1, p.2)

/-- `sine_work_handler` from custom_audio_service.c.  `notify_err` is the
value `bt_gatt_notify` returns when invoked.  The Bool result records
whether `bt_gatt_notify` was called. -/
def sine_work_handler (s : Sys) (notify_err : Int) : Sys × Bool :=
  if s.streaming_active = false ∨ s.notify_enabled = false then
    ({ s with sine_pending := false }, false)
  else
    let p := generate_sine_wave_samples s.phase_accumulator SAMPLES_PER_PACKET
    if notify_err = 0 then
      ({ s with
          phase_accumulator := p.2
          packet_count := s.packet_count + 1
          sine_pending := true }, true)
    else
      ({ s with
          phase_accumulator := p.2
          error_count := s.error_count + 1
          sine_pending := true }, true)

/-- `start_sine_wave_streaming` from custom_audio_service.c. -/
def start_sine_wave_streaming (s : Sys) : Sys :=
  if s.streaming_active then s
  else
    { s with
        streaming_active := true
        phase_accumulator := 0
        packet_count := 0
        error_count := 0
        sine_pending := true }

/-- `stop_sine_wave_streaming` from custom_audio_service.c. -/
def stop_sine_wave_streaming (s : Sys) : Sys :=
  if s.streaming_active = false then s
  else { s with streaming_active := false, sine_pending := false }

/-- `ENOTCONN` (Zephyr errno); `audio_data_send` returns `-ENOTCONN`. -/
def ENOTCONN : Int := 128

/-- `audio_data_send` from custom_audio_service.c: the pair is the
returned code and whether the frame was handed to `bt_gatt_notify`;
`notify_err` is what `bt_gatt_notify` returns when invoked. -/
def audio_data_send (notify_enabled : Bool) (notify_err : Int) : Int × Bool :=
  if notify_enabled = false then (-ENOTCONN, false)
  else (notify_err, true)

/-- Modelled from the spec: `enable_microphone_streaming` is declared in
custom_audio_service.c and called from `ccc_cfg_changed` on the
subscription-enabled event, but its definition is not among the source
files.  Spec §4.2, Disabled → Active: reset
`write_cursor = read_cursor = 0`, reset `packets_sent = errors = 0`,
arm the Pacer's first tick; re-entering Active while already Active is a
no-op.  (`ble_streaming_thread` in main.c likewise resets
`audio_packet_counter = 0` when it arms the timer, and
`start_sine_wave_streaming` resets its counters the same way.) -/
def enable_microphone_streaming (s : Sys) : Sys :=
  if s.mic_streaming then s
  else
    { s with
        mic_streaming := true
        ring := { s.ring with write_pos := 0, read_pos := 0 }
        audio_packet_counter := 0
        error_count := 0
        audio_timer_pending := true }

/-- Modelled from the spec: `disable_microphone_streaming` is declared in
custom_audio_service.c and called on the subscription-disabled event, but
its definition is not among the source files.  Spec §4.2, Active →
Disabled: cancel any pending Pacer tick, stop capture-source activity,
leave ring contents as-is; re-entering Disabled while already Disabled is
a no-op. -/
def disable_microphone_streaming (s : Sys) : Sys :=
  if s.mic_streaming = false then s
  else { s with mic_streaming := false, audio_timer_pending := false }

/-- The count returned by `ring_buffer_read_samples` is definitionally
`min max_samples used`. -/
theorem read_cnt (N : Nat) (rb : RingState) (m : Nat) :
    (ring_buffer_read_samples N rb m).cnt =
      min m (ring_buffer_used_samples N rb) := rfl

/-! ### Concrete states used to witness the theorems -/

/-- A ring state holding exactly one full frame of zero samples. -/
def full_frame_ring : RingState :=
  { ring_buffer := List.replicate RING_BUFFER_SAMPLES 0,
    write_pos := CHUNK_SAMPLES, read_pos := 0 }

/-- A ring state holding a single sample. -/
def one_sample_ring : RingState :=
  { ring_buffer := List.replicate RING_BUFFER_SAMPLES 0,
    write_pos := 1, read_pos := 0 }

/-- A system state with an active stream and one full frame buffered. -/
def sys_full : Sys :=
  { ring := full_frame_ring,
    mic_streaming := true,
    audio_packet_counter := 0,
    audio_timer_pending := true,
    notify_enabled := true,
    streaming_active := true,
    packet_count := 0,
    error_count := 0,
    phase_accumulator := 0,
    sine_pending := true }

/-- A system state with an active stream and an empty ring. -/
def sys_empty : Sys :=
  { ring := init_ring RING_BUFFER_SAMPLES,
    mic_streaming := true,
    audio_packet_counter := 3,
    audio_timer_pending := true,
    notify_enabled := true,
    streaming_active := false,
    packet_count := 0,
    error_count := 5,
    phase_accumulator := 0,
    sine_pending := false }

/-- A system state with an active stream and one buffered sample. -/
def sys_one : Sys :=
  { ring := one_sample_ring,
    mic_streaming := true,
    audio_packet_counter := 2,
    audio_timer_pending := true,
    notify_enabled := true,
    streaming_active := true,
    packet_count := 4,
    error_count := 1,
    phase_accumulator := 7,
    sine_pending := true }

/-- A disabled system state with stale data in the ring. -/
def sys_stale : Sys :=
  { ring := ring_buffer_write_samples RING_BUFFER_SAMPLES
      (init_ring RING_BUFFER_SAMPLES) [9, 9, 9],
    mic_streaming := false,
    audio_packet_counter := 42,
    audio_timer_pending := false,
    notify_enabled := false,
    streaming_active := false,
    packet_count := 6,
    error_count := 7,
    phase_accumulator := 11,
    sine_pending := false }

/-! ### Claims -/

/-- C1: every call to push (`ring_buffer_write_samples`) writes every
sample: per sample, if the ring is at usable capacity (`available = 0`)
the oldest sample is evicted by advancing the read cursor exactly one
position before the new sample is written, the sample is never rejected,
and afterwards `used = min (used_before + count) (N - 1)`. -/
theorem C1_push_overwrites_oldest (N : Nat) (rb : RingState) (s : Int)
    (samples : List Int) (h1 : 1 < N) (h : WF N rb) :
    (contents N (write_one_sample N rb s) =
        (if ring_buffer_available_samples N rb = 0 then (contents N rb).drop 1
         else contents N rb) ++ [s]) ∧
    (ring_buffer_available_samples N rb = 0 →
      (write_one_sample N rb s).read_pos = (rb.read_pos + 1) % N) ∧
    (ring_buffer_available_samples N rb ≠ 0 →
      (write_one_sample N rb s).read_pos = rb.read_pos) ∧
    ring_buffer_used_samples N (ring_buffer_write_samples N rb samples) =
      min (ring_buffer_used_samples N rb + samples.length) (N - 1) := by
  refine ⟨contents_write_one N rb s h1 h, ?_, ?_,
    used_write N rb samples (by omega) h⟩
  · intro hc
    unfold write_one_sample
    rw [if_neg (by omega)]
  · intro hc
    unfold write_one_sample
    rw [if_pos (by omega)]

theorem C1_push_overwrites_oldest_witness :
    (contents 8 (write_one_sample 8 (init_ring 8) 5) =
        (if ring_buffer_available_samples 8 (init_ring 8) = 0
         then (contents 8 (init_ring 8)).drop 1
         else contents 8 (init_ring 8)) ++ [5]) ∧
    (ring_buffer_available_samples 8 (init_ring 8) = 0 →
      (write_one_sample 8 (init_ring 8) 5).read_pos =
        ((init_ring 8).read_pos + 1) % 8) ∧
    (ring_buffer_available_samples 8 (init_ring 8) ≠ 0 →
      (write_one_sample 8 (init_ring 8) 5).read_pos = (init_ring 8).read_pos) ∧
    ring_buffer_used_samples 8 (ring_buffer_write_samples 8 (init_ring 8)
        [1, 2, 3]) =
      min (ring_buffer_used_samples 8 (init_ring 8) + [1, 2, 3].length) (8 - 1) :=
  C1_push_overwrites_oldest 8 (init_ring 8) 5 [1, 2, 3] (by decide) (by decide)

/-- C2: every call to pop (`ring_buffer_read_samples`) removes and
returns exactly `min max_count used` samples, they are the oldest ones in
insertion (FIFO) order, and a short return is signalled only through the
returned count. -/
theorem C2_pop_fifo (N : Nat) (rb : RingState) (max_samples : Nat)
    (h0 : 0 < N) (h : WF N rb) :
    (ring_buffer_read_samples N rb max_samples).cnt =
        min max_samples (ring_buffer_used_samples N rb) ∧
    (ring_buffer_read_samples N rb max_samples).out =
        (contents N rb).take (min max_samples (ring_buffer_used_samples N rb)) ∧
    contents N (ring_buffer_read_samples N rb max_samples).rng =
        (contents N rb).drop (min max_samples (ring_buffer_used_samples N rb)) ∧
    ring_buffer_used_samples N (ring_buffer_read_samples N rb max_samples).rng =
        ring_buffer_used_samples N rb -
          min max_samples (ring_buffer_used_samples N rb) :=
  read_spec N rb max_samples h0 h

theorem C2_pop_fifo_witness :
    (ring_buffer_read_samples 8 (ring_buffer_write_samples 8 (init_ring 8)
        [4, 5, 6]) 2).cnt =
      min 2 (ring_buffer_used_samples 8 (ring_buffer_write_samples 8
        (init_ring 8) [4, 5, 6])) ∧
    (ring_buffer_read_samples 8 (ring_buffer_write_samples 8 (init_ring 8)
        [4, 5, 6]) 2).out =
      (contents 8 (ring_buffer_write_samples 8 (init_ring 8) [4, 5, 6])).take
        (min 2 (ring_buffer_used_samples 8 (ring_buffer_write_samples 8
          (init_ring 8) [4, 5, 6]))) ∧
    contents 8 (ring_buffer_read_samples 8 (ring_buffer_write_samples 8
        (init_ring 8) [4, 5, 6]) 2).rng =
      (contents 8 (ring_buffer_write_samples 8 (init_ring 8) [4, 5, 6])).drop
        (min 2 (ring_buffer_used_samples 8 (ring_buffer_write_samples 8
          (init_ring 8) [4, 5, 6]))) ∧
    ring_buffer_used_samples 8 (ring_buffer_read_samples 8
        (ring_buffer_write_samples 8 (init_ring 8) [4, 5, 6]) 2).rng =
      ring_buffer_used_samples 8 (ring_buffer_write_samples 8 (init_ring 8)
          [4, 5, 6]) -
        min 2 (ring_buffer_used_samples 8 (ring_buffer_write_samples 8
          (init_ring 8) [4, 5, 6])) :=
  C2_pop_fifo 8 (ring_buffer_write_samples 8 (init_ring 8) [4, 5, 6]) 2
    (by decide) (by decide)

/-- C3: with capacity 8 (7 usable), pushing `[0..9]` into the empty ring
leaves exactly `[3,4,5,6,7,8,9]`, and `pop 7` returns them in that order;
in general, pushing more than `N - 1` values into an empty ring retains
exactly the last `N - 1` values, the evicted ones being gone. -/
theorem C3_overflow_keeps_last (N : Nat) (samples : List Int) (h1 : 1 < N)
    (_hlen : N - 1 < samples.length) :
    (contents 8 (ring_buffer_write_samples 8 (init_ring 8)
        [0, 1, 2, 3, 4, 5, 6, 7, 8, 9]) = [3, 4, 5, 6, 7, 8, 9] ∧
      (ring_buffer_read_samples 8 (ring_buffer_write_samples 8 (init_ring 8)
        [0, 1, 2, 3, 4, 5, 6, 7, 8, 9]) 7).out = [3, 4, 5, 6, 7, 8, 9] ∧
      (ring_buffer_read_samples 8 (ring_buffer_write_samples 8 (init_ring 8)
        [0, 1, 2, 3, 4, 5, 6, 7, 8, 9]) 7).cnt = 7) ∧
    contents N (ring_buffer_write_samples N (init_ring N) samples) =
      samples.drop (samples.length - (N - 1)) := by
  have hgen := contents_write_init N samples h1
  exact ⟨⟨by decide, by decide, by decide⟩, hgen⟩

theorem C3_overflow_keeps_last_witness :
    (contents 8 (ring_buffer_write_samples 8 (init_ring 8)
        [0, 1, 2, 3, 4, 5, 6, 7, 8, 9]) = [3, 4, 5, 6, 7, 8, 9] ∧
      (ring_buffer_read_samples 8 (ring_buffer_write_samples 8 (init_ring 8)
        [0, 1, 2, 3, 4, 5, 6, 7, 8, 9]) 7).out = [3, 4, 5, 6, 7, 8, 9] ∧
      (ring_buffer_read_samples 8 (ring_buffer_write_samples 8 (init_ring 8)
        [0, 1, 2, 3, 4, 5, 6, 7, 8, 9]) 7).cnt = 7) ∧
    contents 4 (ring_buffer_write_samples 4 (init_ring 4)
        [10, 11, 12, 13, 14]) =
      [10, 11, 12, 13, 14].drop ([10, 11, 12, 13, 14].length - (4 - 1)) :=
  C3_overflow_keeps_last 4 [10, 11, 12, 13, 14] (by decide) (by decide)

/-- C4: in every reachable ring state the cursors lie in `[0, N)`,
`used` is the cursor difference mod `N`, `available = N - 1 - used`, and
`used` never exceeds `N - 1`. -/
theorem C4_cursor_invariants (N : Nat) (rb : RingState) (h0 : 0 < N)
    (h : Reachable N rb) :
    rb.write_pos < N ∧ rb.read_pos < N ∧
    (ring_buffer_used_samples N rb : Int) =
      ((rb.write_pos : Int) - rb.read_pos) % N ∧
    ring_buffer_available_samples N rb =
      N - 1 - ring_buffer_used_samples N rb ∧
    ring_buffer_used_samples N rb ≤ N - 1 := by
  have hwf := Reachable_WF N rb h0 h
  exact ⟨hwf.1, hwf.2.1, used_int N rb hwf, available_eq N rb hwf,
    used_le N rb hwf⟩

theorem C4_cursor_invariants_witness :
    (ring_buffer_write_samples 8 (init_ring 8) [0, 1, 2]).write_pos < 8 ∧
    (ring_buffer_write_samples 8 (init_ring 8) [0, 1, 2]).read_pos < 8 ∧
    (ring_buffer_used_samples 8 (ring_buffer_write_samples 8 (init_ring 8)
        [0, 1, 2]) : Int) =
      (((ring_buffer_write_samples 8 (init_ring 8) [0, 1, 2]).write_pos : Int) -
        (ring_buffer_write_samples 8 (init_ring 8) [0, 1, 2]).read_pos) % 8 ∧
    ring_buffer_available_samples 8 (ring_buffer_write_samples 8 (init_ring 8)
        [0, 1, 2]) =
      8 - 1 - ring_buffer_used_samples 8 (ring_buffer_write_samples 8
        (init_ring 8) [0, 1, 2]) ∧
    ring_buffer_used_samples 8 (ring_buffer_write_samples 8 (init_ring 8)
        [0, 1, 2]) ≤ 8 - 1 :=
  C4_cursor_invariants 8 (ring_buffer_write_samples 8 (init_ring 8) [0, 1, 2])
    (by decide) (Reachable.write (init_ring 8) [0, 1, 2] Reachable.init)

/-- C5: on an Active Pacer tick where the pop returns fewer than
`CHUNK_SAMPLES = 160` samples, the transmit sink is not called, the tick
is skipped, and the packet counter is unchanged. -/
theorem C5_underrun_skips_tick (s : Sys) (sink_err : Int)
    (hactive : s.mic_streaming = true)
    (hunder : ring_buffer_used_samples RING_BUFFER_SAMPLES s.ring <
      CHUNK_SAMPLES) :
    (ring_buffer_read_samples RING_BUFFER_SAMPLES s.ring CHUNK_SAMPLES).cnt <
      CHUNK_SAMPLES ∧
    (audio_timer_handler s sink_err).2 = none ∧
    (audio_timer_handler s sink_err).1.audio_packet_counter =
      s.audio_packet_counter := by
  have hcnt := read_cnt RING_BUFFER_SAMPLES s.ring CHUNK_SAMPLES
  have hcond : ¬((ring_buffer_read_samples RING_BUFFER_SAMPLES s.ring
      CHUNK_SAMPLES).cnt = CHUNK_SAMPLES) := by
    rw [hcnt]; omega
  refine ⟨by omega, ?_, ?_⟩ <;>
    simp [audio_timer_handler, hactive, hcond]

theorem C5_underrun_skips_tick_witness :
    (ring_buffer_read_samples RING_BUFFER_SAMPLES sys_empty.ring
        CHUNK_SAMPLES).cnt < CHUNK_SAMPLES ∧
    (audio_timer_handler sys_empty (-5)).2 = none ∧
    (audio_timer_handler sys_empty (-5)).1.audio_packet_counter =
      sys_empty.audio_packet_counter :=
  C5_underrun_skips_tick sys_empty (-5) rfl (by decide)

/-- C10: on an Active Pacer tick where the pop returns `k` samples with
`0 < k < 160`, those `k` samples are removed from the ring and discarded:
the sink is not called, the ring is left empty (`used` drops by exactly
`k`, to zero, and the content is empty), and no counter changes. -/
theorem C10_underrun_discards (s : Sys) (sink_err : Int)
    (hactive : s.mic_streaming = true)
    (hwf : WF RING_BUFFER_SAMPLES s.ring)
    (_hpos : 0 < ring_buffer_used_samples RING_BUFFER_SAMPLES s.ring)
    (hunder : ring_buffer_used_samples RING_BUFFER_SAMPLES s.ring <
      CHUNK_SAMPLES) :
    (ring_buffer_read_samples RING_BUFFER_SAMPLES s.ring CHUNK_SAMPLES).cnt =
      ring_buffer_used_samples RING_BUFFER_SAMPLES s.ring ∧
    (audio_timer_handler s sink_err).2 = none ∧
    ring_buffer_used_samples RING_BUFFER_SAMPLES
        (audio_timer_handler s sink_err).1.ring =
      ring_buffer_used_samples RING_BUFFER_SAMPLES s.ring -
        (ring_buffer_read_samples RING_BUFFER_SAMPLES s.ring CHUNK_SAMPLES).cnt ∧
    ring_buffer_used_samples RING_BUFFER_SAMPLES
        (audio_timer_handler s sink_err).1.ring = 0 ∧
    contents RING_BUFFER_SAMPLES (audio_timer_handler s sink_err).1.ring = [] ∧
    (audio_timer_handler s sink_err).1.audio_packet_counter =
      s.audio_packet_counter ∧
    (audio_timer_handler s sink_err).1.error_count = s.error_count := by
  have h0 : 0 < RING_BUFFER_SAMPLES := by
    unfold RING_BUFFER_SAMPLES; omega
  have hcnt := read_cnt RING_BUFFER_SAMPLES s.ring CHUNK_SAMPLES
  have hcond : ¬((ring_buffer_read_samples RING_BUFFER_SAMPLES s.ring
      CHUNK_SAMPLES).cnt = CHUNK_SAMPLES) := by
    rw [hcnt]; omega
  have hspec := read_spec RING_BUFFER_SAMPLES s.ring CHUNK_SAMPLES h0 hwf
  obtain ⟨hc1, hc2, hc3, hc4⟩ := hspec
  have hmin : min CHUNK_SAMPLES
      (ring_buffer_used_samples RING_BUFFER_SAMPLES s.ring) =
      ring_buffer_used_samples RING_BUFFER_SAMPLES s.ring := by omega
  have hring : (audio_timer_handler s sink_err).1.ring =
      (ring_buffer_read_samples RING_BUFFER_SAMPLES s.ring CHUNK_SAMPLES).rng := by
    simp [audio_timer_handler, hactive, hcond]
  refine ⟨by omega, by simp [audio_timer_handler, hactive, hcond], ?_, ?_, ?_,
    by simp [audio_timer_handler, hactive, hcond],
    by simp [audio_timer_handler, hactive, hcond]⟩
  · rw [hring, hc4, hcnt]
  · rw [hring, hc4, hmin]
    omega
  · rw [hring, hc3, hmin]
    have hlen := contents_length RING_BUFFER_SAMPLES s.ring
    rw [← hlen, List.drop_length]

theorem C10_underrun_discards_witness :
    (ring_buffer_read_samples RING_BUFFER_SAMPLES sys_one.ring
        CHUNK_SAMPLES).cnt =
      ring_buffer_used_samples RING_BUFFER_SAMPLES sys_one.ring ∧
    (audio_timer_handler sys_one 0).2 = none ∧
    ring_buffer_used_samples RING_BUFFER_SAMPLES
        (audio_timer_handler sys_one 0).1.ring =
      ring_buffer_used_samples RING_BUFFER_SAMPLES sys_one.ring -
        (ring_buffer_read_samples RING_BUFFER_SAMPLES sys_one.ring
          CHUNK_SAMPLES).cnt ∧
    ring_buffer_used_samples RING_BUFFER_SAMPLES
        (audio_timer_handler sys_one 0).1.ring = 0 ∧
    contents RING_BUFFER_SAMPLES (audio_timer_handler sys_one 0).1.ring = [] ∧
    (audio_timer_handler sys_one 0).1.audio_packet_counter =
      sys_one.audio_packet_counter ∧
    (audio_timer_handler sys_one 0).1.error_count = sys_one.error_count :=
  C10_underrun_discards sys_one 0 rfl
    ⟨by decide, by decide, by simp [sys_one, one_sample_ring]⟩
    (by decide) (by decide)

/-- C6 counterexample: on a full-frame Pacer tick whose sink call fails
(`send_mic_audio_data` returns −1), no error counter is incremented —
`audio_timer_handler` in main.c maintains no error counter at all, so
`error_count` stays 0 instead of becoming 1 as the claim requires. -/
theorem C6_counterexample_no_error_increment :
    (audio_timer_handler sys_full (-1)).2.isSome = true ∧
    sys_full.error_count = 0 ∧
    (audio_timer_handler sys_full (-1)).1.error_count = 0 ∧
    ¬((audio_timer_handler sys_full (-1)).1.error_count =
        sys_full.error_count + 1) :=
  ⟨rfl, rfl, rfl, by decide⟩

/-- C6 (amended): on a full-frame Pacer tick, sink success increments
`audio_packet_counter` by exactly one; sink failure changes no counter
(main.c has no error counter — the error-count-on-failure behaviour lives
in the sine-wave service's `sine_work_handler`, which increments
`error_count` on notify failure and `packet_count` on success and always
reschedules); in both cases the Pacer's next tick is scheduled. -/
theorem C6_full_frame_counters (s : Sys) (sink_err : Int)
    (hactive : s.mic_streaming = true)
    (hfull : CHUNK_SAMPLES ≤
      ring_buffer_used_samples RING_BUFFER_SAMPLES s.ring) :
    (audio_timer_handler s sink_err).2.isSome = true ∧
    (sink_err = 0 →
      (audio_timer_handler s sink_err).1.audio_packet_counter =
        s.audio_packet_counter + 1 ∧
      (audio_timer_handler s sink_err).1.error_count = s.error_count) ∧
    (sink_err ≠ 0 →
      (audio_timer_handler s sink_err).1.audio_packet_counter =
        s.audio_packet_counter ∧
      (audio_timer_handler s sink_err).1.error_count = s.error_count) ∧
    (audio_timer_handler s sink_err).1.audio_timer_pending = true ∧
    (∀ notify_err : Int,
      s.streaming_active = true → s.notify_enabled = true →
      (notify_err = 0 →
        (sine_work_handler s notify_err).1.packet_count =
          s.packet_count + 1 ∧
        (sine_work_handler s notify_err).1.error_count = s.error_count) ∧
      (notify_err ≠ 0 →
        (sine_work_handler s notify_err).1.error_count =
          s.error_count + 1 ∧
        (sine_work_handler s notify_err).1.packet_count = s.packet_count) ∧
      (sine_work_handler s notify_err).1.sine_pending = true) := by
  have hcnt := read_cnt RING_BUFFER_SAMPLES s.ring CHUNK_SAMPLES
  have hcond : (ring_buffer_read_samples RING_BUFFER_SAMPLES s.ring
      CHUNK_SAMPLES).cnt = CHUNK_SAMPLES := by
    rw [hcnt]; omega
  refine ⟨?_, ?_, ?_, ?_, ?_⟩
  · by_cases he : sink_err = 0 <;>
      simp [audio_timer_handler, hactive, hcond, he]
  · intro he
    constructor <;> simp [audio_timer_handler, hactive, hcond, he]
  · intro he
    constructor <;> simp [audio_timer_handler, hactive, hcond, he]
  · by_cases he : sink_err = 0 <;>
      simp [audio_timer_handler, hactive, hcond, he]
  · intro notify_err hsa hne
    refine ⟨fun he => ?_, fun he => ?_, ?_⟩
    · constructor <;> simp [sine_work_handler, hsa, hne, he]
    · constructor <;> simp [sine_work_handler, hsa, hne, he]
    · by_cases he : notify_err = 0 <;> simp [sine_work_handler, hsa, hne, he]

theorem C6_full_frame_counters_witness :
    (audio_timer_handler sys_full 0).2.isSome = true ∧
    ((0 : Int) = 0 →
      (audio_timer_handler sys_full 0).1.audio_packet_counter =
        sys_full.audio_packet_counter + 1 ∧
      (audio_timer_handler sys_full 0).1.error_count = sys_full.error_count) ∧
    ((0 : Int) ≠ 0 →
      (audio_timer_handler sys_full 0).1.audio_packet_counter =
        sys_full.audio_packet_counter ∧
      (audio_timer_handler sys_full 0).1.error_count = sys_full.error_count) ∧
    (audio_timer_handler sys_full 0).1.audio_timer_pending = true ∧
    (∀ notify_err : Int,
      sys_full.streaming_active = true → sys_full.notify_enabled = true →
      (notify_err = 0 →
        (sine_work_handler sys_full notify_err).1.packet_count =
          sys_full.packet_count + 1 ∧
        (sine_work_handler sys_full notify_err).1.error_count =
          sys_full.error_count) ∧
      (notify_err ≠ 0 →
        (sine_work_handler sys_full notify_err).1.error_count =
          sys_full.error_count + 1 ∧
        (sine_work_handler sys_full notify_err).1.packet_count =
          sys_full.packet_count) ∧
      (sine_work_handler sys_full notify_err).1.sine_pending = true) :=
  C6_full_frame_counters sys_full 0 rfl (by decide)

/-- C7: after every Disabled → Active transition of the stream
controller — including Active → Disabled → Active — the session counters
are zero and the ring is logically empty (`write_cursor = read_cursor =
0`, hence `used = 0`) while the stale bytes stay in the backing array. -/
theorem C7_reset_on_activate (s t : Sys) (hdis : s.mic_streaming = false) :
    ((enable_microphone_streaming s).mic_streaming = true ∧
      (enable_microphone_streaming s).audio_packet_counter = 0 ∧
      (enable_microphone_streaming s).error_count = 0 ∧
      (enable_microphone_streaming s).ring.write_pos = 0 ∧
      (enable_microphone_streaming s).ring.read_pos = 0 ∧
      ring_buffer_used_samples RING_BUFFER_SAMPLES
        (enable_microphone_streaming s).ring = 0 ∧
      (enable_microphone_streaming s).ring.ring_buffer = s.ring.ring_buffer) ∧
    ((disable_microphone_streaming t).mic_streaming = false ∧
      (enable_microphone_streaming
        (disable_microphone_streaming t)).audio_packet_counter = 0 ∧
      (enable_microphone_streaming
        (disable_microphone_streaming t)).error_count = 0 ∧
      ring_buffer_used_samples RING_BUFFER_SAMPLES
        (enable_microphone_streaming (disable_microphone_streaming t)).ring
        = 0 ∧
      (enable_microphone_streaming
        (disable_microphone_streaming t)).ring.ring_buffer =
        t.ring.ring_buffer) := by
  constructor
  · simp [enable_microphone_streaming, hdis, ring_buffer_used_samples]
  · by_cases ht : t.mic_streaming <;>
      simp [enable_microphone_streaming, disable_microphone_streaming, ht,
        ring_buffer_used_samples]

theorem C7_reset_on_activate_witness :
    ((enable_microphone_streaming sys_stale).mic_streaming = true ∧
      (enable_microphone_streaming sys_stale).audio_packet_counter = 0 ∧
      (enable_microphone_streaming sys_stale).error_count = 0 ∧
      (enable_microphone_streaming sys_stale).ring.write_pos = 0 ∧
      (enable_microphone_streaming sys_stale).ring.read_pos = 0 ∧
      ring_buffer_used_samples RING_BUFFER_SAMPLES
        (enable_microphone_streaming sys_stale).ring = 0 ∧
      (enable_microphone_streaming sys_stale).ring.ring_buffer =
        sys_stale.ring.ring_buffer) ∧
    ((disable_microphone_streaming sys_full).mic_streaming = false ∧
      (enable_microphone_streaming
        (disable_microphone_streaming sys_full)).audio_packet_counter = 0 ∧
      (enable_microphone_streaming
        (disable_microphone_streaming sys_full)).error_count = 0 ∧
      ring_buffer_used_samples RING_BUFFER_SAMPLES
        (enable_microphone_streaming
          (disable_microphone_streaming sys_full)).ring = 0 ∧
      (enable_microphone_streaming
        (disable_microphone_streaming sys_full)).ring.ring_buffer =
        sys_full.ring.ring_buffer) :=
  C7_reset_on_activate sys_stale sys_full rfl

/-- C8: Enable and Disable are idempotent: a second Enable while already
Active is a no-op leaving every field (counters included) unchanged, a
second Disable performs no further side effects, and
`enable ∘ enable = enable`, `disable ∘ disable = disable`. -/
theorem C8_enable_disable_idempotent (s : Sys) :
    start_sine_wave_streaming (start_sine_wave_streaming s) =
      start_sine_wave_streaming s ∧
    stop_sine_wave_streaming (stop_sine_wave_streaming s) =
      stop_sine_wave_streaming s ∧
    (s.streaming_active = true → start_sine_wave_streaming s = s) ∧
    (s.streaming_active = false → stop_sine_wave_streaming s = s) := by
  by_cases h : s.streaming_active <;>
    simp [start_sine_wave_streaming, stop_sine_wave_streaming, h]

theorem C8_enable_disable_idempotent_witness :
    start_sine_wave_streaming (start_sine_wave_streaming sys_full) =
      start_sine_wave_streaming sys_full ∧
    stop_sine_wave_streaming (stop_sine_wave_streaming sys_full) =
      stop_sine_wave_streaming sys_full ∧
    (sys_full.streaming_active = true →
      start_sine_wave_streaming sys_full = sys_full) ∧
    (sys_full.streaming_active = false →
      stop_sine_wave_streaming sys_full = sys_full) :=
  C8_enable_disable_idempotent sys_full

/-- C9: while the peer's subscription (notify) flag is not set,
`audio_data_send` returns `-ENOTCONN` (a failure, never 0) and no frame
is handed to the radio stack; a send can return success only while the
flag is set. -/
theorem C9_send_needs_subscription (b : Bool) (e : Int) (hb : b = false) :
    (audio_data_send b e).1 = -ENOTCONN ∧
    (audio_data_send b e).1 ≠ 0 ∧
    (audio_data_send b e).2 = false ∧
    (∀ (b2 : Bool) (e2 : Int), (audio_data_send b2 e2).1 = 0 → b2 = true) := by
  subst hb
  refine ⟨rfl, by norm_num [audio_data_send, ENOTCONN], rfl, ?_⟩
  intro b2 e2 hz
  cases b2
  · exfalso
    simp [audio_data_send, ENOTCONN] at hz
  · rfl

theorem C9_send_needs_subscription_witness :
    (audio_data_send false 7).1 = -ENOTCONN ∧
    (audio_data_send false 7).1 ≠ 0 ∧
    (audio_data_send false 7).2 = false ∧
    (∀ (b2 : Bool) (e2 : Int), (audio_data_send b2 e2).1 = 0 → b2 = true) :=
  C9_send_needs_subscription false 7 rfl

end Firmware
